import Mathlib

/-!
Shallow embedding of the cobble toolchain core (a minimal fixed-width
instruction architecture: parser, symbol resolver, 24-bit encoder and
interpreter).  Machine integers are modelled as `Nat` with explicit
`% 2^w` where the source relies on wrapping; fallible operations return
`Option` / `Except`; the one deliberate `panic!` in the source is
modelled as a dedicated `abort` result constructor.
-/

set_option maxHeartbeats 1000000

namespace Cobble

/-- Operand types, from `compiler/ast.rs` (`enum Op`).  Register indices and
immediates are `u8`/`u16` values, modelled as `Nat`. -/
inductive Op where
  | Reg (r : Nat)
  | Imm8 (v : Nat)
  | Imm12 (v : Nat)
  | Label (name : String)
deriving DecidableEq, Repr

/-- Instruction types, from `compiler/ast.rs` (`enum Instr`). -/
inductive Instr where
  | Label (name : String)
  | Halt
  | Nop
  | Mv (rd rs1 : Op)
  | Not (rd rs1 : Op)
  | Add (rd rs1 rs2 : Op)
  | Sub (rd rs1 rs2 : Op)
  | And (rd rs1 rs2 : Op)
  | Or (rd rs1 rs2 : Op)
  | Xor (rd rs1 rs2 : Op)
  | Addi (rd rs1 imm : Op)
  | Andi (rd rs1 imm : Op)
  | Ori (rd rs1 imm : Op)
  | Xori (rd rs1 imm : Op)
  | Jmp (imm : Op)
  | Bz (imm : Op)
  | Bnz (imm : Op)
deriving DecidableEq, Repr

/-- A program is an ordered list of instructions (`type Program = Vec<Instr>`). -/
abbrev Program := List Instr

/-- The register file, from `interpreter/state.rs`: `struct Registers([u8; 15])`.
Fifteen mutable 8-bit cells backing registers 1..15; register 0 has no storage. -/
abbrev Registers := Fin 15 → Nat

/-- `Registers::r`: read a register.  Register 0 always reads 0; registers
1..15 read the backing cell `reg - 1`; anything else is `None`. -/
def Registers.r (regs : Registers) (reg : Nat) : Option Nat :=
  if reg = 0 then some 0
  else if h : 1 ≤ reg ∧ reg ≤ 15 then some (regs ⟨reg - 1, by omega⟩)
  else none

/-- `Registers::w`: write a register.  A write to register 0 succeeds but is
discarded; registers 1..15 update cell `reg - 1`; anything else is `Err`. -/
def Registers.w (regs : Registers) (reg : Nat) (v : Nat) : Except Unit Registers :=
  if reg = 0 then .ok regs
  else if 1 ≤ reg ∧ reg ≤ 15 then
    .ok (fun j => if j.val = reg - 1 then v else regs j)
  else .error ()

/-- ALU flags, from `interpreter/state.rs` (`struct Flags`). -/
structure Flags where
  zero : Bool
  overflow : Bool
deriving DecidableEq, Repr

/-- Virtual machine state, from `interpreter/state.rs` (`struct State`).
The program counter is a `u16`, modelled as a `Nat` kept below 2^16 by the
wrapping increments of `interpret`. -/
structure State where
  pc : Nat
  regs : Registers
  flags : Flags

/-- `State::new` / `State::default`: PC 0, all cells 0, flags `(true, false)`. -/
def State.new : State :=
  { pc := 0, regs := fun _ => 0, flags := ⟨true, false⟩ }

/-- Interpreter faults, from `interpreter/vm.rs` (`enum InterpreterError`). -/
inductive InterpreterError where
  | InvalidInstruction (i : Instr)
  | InvalidOperands (i : Instr)
  | InvalidRegister (reg : Nat)
  | PCOutOfBounds (pc : Nat)
deriving DecidableEq, Repr

/-- `inbounds_add`: wrapping 8-bit add with the bool set on overflow
(`u8::checked_add` succeeds exactly when the sum fits in 255). -/
def inbounds_add (a b : Nat) : Nat × Bool :=
  if a + b ≤ 255 then (a + b, false) else ((a + b) % 256, true)

/-- `inbounds_sub`: wrapping 8-bit subtract with the bool set on underflow
(`u8::checked_sub` succeeds exactly when `b ≤ a`; wrapping is mod 256). -/
def inbounds_sub (a b : Nat) : Nat × Bool :=
  if b ≤ a then (a - b, false) else (((a + 256) - b) % 256, true)

/-- `interpret` from `interpreter/vm.rs`: executes one instruction against a
state, returning the updated state together with the next PC (`some`) or a
halt signal (`none`).  Arm order follows the source; the final catch-all
returns `InvalidInstruction`.  `state.pc + 1` is `u16` addition, modelled
with `% 65536`. -/
def interpret (instr : Instr) (s : State) :
    Except InterpreterError (State × Option Nat) :=
  match instr with
  | .Halt => .ok ({ s with flags := ⟨true, false⟩ }, none)
  | .Addi (.Reg rd) (.Reg rs1) (.Imm8 imm) =>
    match Registers.r s.regs rs1 with
    | none => .error (.InvalidRegister rs1)
    | some a =>
      match inbounds_add a imm with
      | (res, overflow) =>
        match Registers.w s.regs rd res with
        | .error _ => .error (.InvalidRegister rd)
        | .ok regs =>
          .ok ({ s with regs := regs, flags := ⟨res == 0, overflow⟩ },
               some ((s.pc + 1) % 65536))
  | .Mv (.Reg rd) (.Reg rs1) =>
    match Registers.r s.regs rs1 with
    | none => .error (.InvalidRegister rs1)
    | some a =>
      match Registers.w s.regs rd a with
      | .error _ => .error (.InvalidRegister rd)
      | .ok regs =>
        .ok ({ s with regs := regs, flags := ⟨a == 0, false⟩ },
             some ((s.pc + 1) % 65536))
  | .Nop => .ok ({ s with flags := ⟨true, false⟩ }, some ((s.pc + 1) % 65536))
  | .Add (.Reg rd) (.Reg rs1) (.Reg rs2) =>
    match Registers.r s.regs rs1 with
    | none => .error (.InvalidRegister rs1)
    | some a =>
      match Registers.r s.regs rs2 with
      | none => .error (.InvalidRegister rs2)
      | some b =>
        match inbounds_add a b with
        | (res, overflow) =>
          match Registers.w s.regs rd res with
          | .error _ => .error (.InvalidRegister rd)
          | .ok regs =>
            .ok ({ s with regs := regs, flags := ⟨res == 0, overflow⟩ },
                 some ((s.pc + 1) % 65536))
  | .Sub (.Reg rd) (.Reg rs1) (.Reg rs2) =>
    match Registers.r s.regs rs1 with
    | none => .error (.InvalidRegister rs1)
    | some a =>
      match Registers.r s.regs rs2 with
      | none => .error (.InvalidRegister rs2)
      | some b =>
        match inbounds_sub a b with
        | (res, overflow) =>
          match Registers.w s.regs rd res with
          | .error _ => .error (.InvalidRegister rd)
          | .ok regs =>
            .ok ({ s with regs := regs, flags := ⟨res == 0, overflow⟩ },
                 some ((s.pc + 1) % 65536))
  | .Not (.Reg rd) (.Reg rs1) =>
    match Registers.r s.regs rs1 with
    | none => .error (.InvalidRegister rs1)
    | some a =>
      match Registers.w s.regs rd (255 - a) with
      | .error _ => .error (.InvalidRegister rd)
      | .ok regs =>
        .ok ({ s with regs := regs, flags := ⟨(255 - a) == 0, false⟩ },
             some ((s.pc + 1) % 65536))
  | .Jmp target =>
    match target with
    | .Imm12 imm => .ok ({ s with flags := ⟨true, false⟩ }, some imm)
    | _ => .error (.InvalidOperands (.Jmp target))
  | .Bz (.Imm12 imm) =>
    if s.flags.zero then .ok (s, some imm)
    else .ok (s, some ((s.pc + 1) % 65536))
  | .Bnz (.Imm12 imm) =>
    if s.flags.zero then .ok (s, some ((s.pc + 1) % 65536))
    else .ok (s, some imm)
  | i => .error (.InvalidInstruction i)

/-- The 24-bit instruction builder from `assembler/encoder.rs`; the word lives
in a `u32` container (only bits 0..23 significant). -/
structure InstrBuilder where
  word : Nat
deriving DecidableEq, Repr

/-- `InstrBuilder::new`: a fresh all-zero word. -/
def InstrBuilder.new : InstrBuilder := ⟨0⟩

/-- `opcode`: 6-bit opcode in bits 0-5 (`(word & !0x3F) | (op & 0x3F)`;
`!0x3F` on `u32` is `0xFFFFFFC0`). -/
def InstrBuilder.opcode (b : InstrBuilder) (op : Nat) : InstrBuilder :=
  ⟨(b.word &&& 0xFFFFFFC0) ||| (op &&& 0x3F)⟩

/-- `fun2`: 2-bit field in bits 6-7 (`!0xC0` is `0xFFFFFF3F`). -/
def InstrBuilder.fun2 (b : InstrBuilder) (f : Nat) : InstrBuilder :=
  ⟨(b.word &&& 0xFFFFFF3F) ||| ((f &&& 0x03) <<< 6)⟩

/-- `fun4`: the source masks with `!0xF0000` (clearing bits 16-19) while the
value is shifted into bits 20-23, exactly as written in the source. -/
def InstrBuilder.fun4 (b : InstrBuilder) (f : Nat) : InstrBuilder :=
  ⟨(b.word &&& 0xFFF0FFFF) ||| ((f &&& 0x0F) <<< 20)⟩

/-- `set_reg`: clears a 4-bit field at `shift` and ORs in the low 4 bits of
`value` (`!(0x0F << shift)` on `u32` is `0xFFFFFFFF ^^^ (0x0F <<< shift)`). -/
def InstrBuilder.set_reg (b : InstrBuilder) (value shift : Nat) : InstrBuilder :=
  ⟨(b.word &&& (0xFFFFFFFF ^^^ (0x0F <<< shift))) ||| ((value &&& 0x0F) <<< shift)⟩

/-- `rd`: bits 8-11. -/
def InstrBuilder.rd (b : InstrBuilder) (reg : Nat) : InstrBuilder :=
  b.set_reg reg 8

/-- `rs1`: bits 12-15. -/
def InstrBuilder.rs1 (b : InstrBuilder) (reg : Nat) : InstrBuilder :=
  b.set_reg reg 12

/-- `rs2`: bits 16-19. -/
def InstrBuilder.rs2 (b : InstrBuilder) (reg : Nat) : InstrBuilder :=
  b.set_reg reg 16

/-- `imm8`: bits 16-23 (`!0xFF0000` is `0xFF00FFFF`; the immediate is a `u8`
and is not masked). -/
def InstrBuilder.imm8 (b : InstrBuilder) (imm : Nat) : InstrBuilder :=
  ⟨(b.word &&& 0xFF00FFFF) ||| (imm <<< 16)⟩

/-- `imm12`: bits 12-23 (`!0xFFF000` is `0xFF000FFF`; the immediate is a `u16`
and is not masked). -/
def InstrBuilder.imm12 (b : InstrBuilder) (imm : Nat) : InstrBuilder :=
  ⟨(b.word &&& 0xFF000FFF) ||| (imm <<< 12)⟩

/-- `finalize`: the final 24-bit word. -/
def InstrBuilder.finalize (b : InstrBuilder) : Nat :=
  b.word &&& 0xFFFFFF

/-- Encoder errors, from `assembler/encoder.rs` (`enum AsmError`). -/
inductive AsmError where
  | UnknownInstruction (i : Instr)
  | UndefinedLabel (s : String)
  | InvalidRegister (s : String)
  | InvalidOperand (s : String)
  | ImmOverflow (v : Nat)
deriving DecidableEq, Repr

/-- Outcome of `encode`.  `abort` models the source's `panic!` (abrupt
termination), which is distinct from the typed `AsmError` results. -/
inductive EncodeResult where
  | ok (word : Nat)
  | error (e : AsmError)
  | abort (msg : String)
deriving DecidableEq, Repr

/-- True exactly on the `abort` (panicking) outcome of `encode`. -/
def EncodeResult.aborts : EncodeResult → Bool
  | .abort _ => true
  | _ => false

/-- `encode` from `assembler/encoder.rs`: packs one instruction into a 24-bit
word.  `Label` hits the source's `panic!("Cannot encode labels")`; `Halt` and
`Jmp{Imm12}` both encode as the word 0; only `Addi`, `Mv`, `Nop`, `Add` and
`Sub` are otherwise implemented, everything else is `UnknownInstruction`. -/
def encode (instr : Instr) : EncodeResult :=
  match instr with
  | .Label _ => .abort "Cannot encode labels"
  | .Halt => .ok 0
  | .Addi rd rs1 imm =>
    match rd, rs1, imm with
    | .Reg rd, .Reg rs1, .Imm8 imm =>
      .ok ((((InstrBuilder.new.opcode 0b000001).rd rd).rs1 rs1).imm8 imm).finalize
    | _, _, _ => .error (.InvalidOperand "")
  | .Mv rd rs1 =>
    match rd, rs1 with
    | .Reg rd, .Reg rs1 =>
      .ok (((InstrBuilder.new.opcode 0b000001).rd rd).rs1 rs1).finalize
    | _, _ => .error (.InvalidOperand "")
  | .Nop => .ok (((InstrBuilder.new.opcode 0b000001).rd 0).rs1 0).finalize
  | .Add rd rs1 rs2 =>
    match rd, rs1, rs2 with
    | .Reg rd, .Reg rs1, .Reg rs2 =>
      .ok ((((InstrBuilder.new.opcode 0b000010).rd rd).rs1 rs1).rs2 rs2).finalize
    | _, _, _ => .error (.InvalidOperand "")
  | .Sub rd rs1 rs2 =>
    match rd, rs1, rs2 with
    | .Reg rd, .Reg rs1, .Reg rs2 =>
      .ok ((((InstrBuilder.new.opcode 0b000011).rd rd).rs1 rs1).rs2 rs2).finalize
    | _, _, _ => .error (.InvalidOperand "")
  | .Jmp target =>
    match target with
    | .Imm12 _ => .ok 0x0
    | _ => .error (.InvalidOperand "")
  | i => .error (.UnknownInstruction i)

/-- Symbol resolution errors, from `compiler/symbol.rs` (`enum SymbolError`). -/
inductive SymbolError where
  | DuplicateSymbol (s : String)
  | NoSuchSymbol (s : String)
  | UnstrippedSymbol (s : String)
deriving DecidableEq, Repr

/-- The symbol table (`HashMap<String, u16>` in the source), modelled as an
association list; `strip_symbols` only ever inserts unseen keys, so the list
has unique keys and lookup order is immaterial. -/
abbrev SymbolTable := List (String × Nat)

/-- `HashMap::contains_key`. -/
def tableContains (t : SymbolTable) (k : String) : Bool :=
  t.any (fun p => p.1 == k)

/-- `HashMap::insert` (only reached for keys not yet present). -/
def tableInsert (t : SymbolTable) (k : String) (v : Nat) : SymbolTable :=
  t ++ [(k, v)]

/-- `HashMap::get`. -/
def tableGet (t : SymbolTable) (k : String) : Option Nat :=
  (t.find? (fun p => p.1 == k)).map Prod.snd

/-- The loop body of `strip_symbols`, with the running table and the `u16`
address counter made explicit (the counter increments with `u16` wrap). -/
def strip_symbols_aux (symbols : SymbolTable) (pc : Nat) :
    List Instr → Except SymbolError (List Instr × SymbolTable)
  | [] => .ok ([], symbols)
  | .Label l :: rest =>
    if tableContains symbols l then .error (.DuplicateSymbol l)
    else strip_symbols_aux (tableInsert symbols l pc) pc rest
  | i :: rest =>
    match strip_symbols_aux symbols ((pc + 1) % 65536) rest with
    | .ok (out, tbl) => .ok (i :: out, tbl)
    | .error e => .error e

/-- `strip_symbols` from `compiler/symbol.rs`: removes `Label`
pseudo-instructions, recording each label at the current post-strip address;
a duplicate declaration is an error. -/
def strip_symbols (prg : List Instr) : Except SymbolError (List Instr × SymbolTable) :=
  strip_symbols_aux [] 0 prg

/-- `replace_symbols` from `compiler/symbol.rs`: rewrites `Label` targets of
`Jmp`/`Bnz`/`Bz` to `Imm12` addresses via the table; an unstripped `Label`
instruction is an error; everything else passes through unchanged. -/
def replace_symbols (prg : List Instr) (symbols : SymbolTable) :
    Except SymbolError (List Instr) :=
  match prg with
  | [] => .ok []
  | .Label s :: _ => .error (.UnstrippedSymbol s)
  | .Jmp (.Label sym) :: rest =>
    match tableGet symbols sym with
    | none => .error (.NoSuchSymbol sym)
    | some addr =>
      match replace_symbols rest symbols with
      | .ok out => .ok (.Jmp (.Imm12 addr) :: out)
      | .error e => .error e
  | .Bnz (.Label sym) :: rest =>
    match tableGet symbols sym with
    | none => .error (.NoSuchSymbol sym)
    | some addr =>
      match replace_symbols rest symbols with
      | .ok out => .ok (.Bnz (.Imm12 addr) :: out)
      | .error e => .error e
  | .Bz (.Label sym) :: rest =>
    match tableGet symbols sym with
    | none => .error (.NoSuchSymbol sym)
    | some addr =>
      match replace_symbols rest symbols with
      | .ok out => .ok (.Bz (.Imm12 addr) :: out)
      | .error e => .error e
  | i :: rest =>
    match replace_symbols rest symbols with
    | .ok out => .ok (i :: out)
    | .error e => .error e

/-- Is this instruction the `Label` pseudo-instruction? -/
def isLabelInstr : Instr → Bool
  | .Label _ => true
  | _ => false

/-- Names declared by `Label` pseudo-instructions, in program order. -/
def declaredLabels : List Instr → List String
  | [] => []
  | .Label l :: rest => l :: declaredLabels rest
  | _ :: rest => declaredLabels rest

/-- Label names referenced by a branch instruction's target operand. -/
def branchTargets : Instr → List String
  | .Jmp (.Label s) => [s]
  | .Bz (.Label s) => [s]
  | .Bnz (.Label s) => [s]
  | _ => []

/-- Is this operand a `Label`? -/
def opIsLabel : Op → Bool
  | .Label _ => true
  | _ => false

/-- Does any operand slot of this instruction hold a `Label` operand? -/
def instrHasLabelOperand : Instr → Bool
  | .Mv rd rs1 => opIsLabel rd || opIsLabel rs1
  | .Not rd rs1 => opIsLabel rd || opIsLabel rs1
  | .Add rd rs1 rs2 => opIsLabel rd || opIsLabel rs1 || opIsLabel rs2
  | .Sub rd rs1 rs2 => opIsLabel rd || opIsLabel rs1 || opIsLabel rs2
  | .And rd rs1 rs2 => opIsLabel rd || opIsLabel rs1 || opIsLabel rs2
  | .Or rd rs1 rs2 => opIsLabel rd || opIsLabel rs1 || opIsLabel rs2
  | .Xor rd rs1 rs2 => opIsLabel rd || opIsLabel rs1 || opIsLabel rs2
  | .Addi rd rs1 imm => opIsLabel rd || opIsLabel rs1 || opIsLabel imm
  | .Andi rd rs1 imm => opIsLabel rd || opIsLabel rs1 || opIsLabel imm
  | .Ori rd rs1 imm => opIsLabel rd || opIsLabel rs1 || opIsLabel imm
  | .Xori rd rs1 imm => opIsLabel rd || opIsLabel rs1 || opIsLabel imm
  | .Jmp imm => opIsLabel imm
  | .Bz imm => opIsLabel imm
  | .Bnz imm => opIsLabel imm
  | _ => false

/-- Label operands occur only where `replace_symbols` rewrites them: as the
target of `Jmp`/`Bz`/`Bnz`.  Every other instruction must be label-free. -/
def labelsOnlyInBranches : Instr → Bool
  | .Jmp _ => true
  | .Bz _ => true
  | .Bnz _ => true
  | i => !instrHasLabelOperand i

/-- Parse errors, from `compiler/parser.rs` (`enum ParserError`): a 1-based
line number and a description (the description text is not modelled). -/
inductive ParserError where
  | Error (line : Nat) (msg : String)
deriving DecidableEq, Repr

/-- `nom`'s `take_while1` on characters: one or more characters satisfying
`p`, returning the rest of the input and the matched run. -/
def takeWhile1 (p : Char → Bool) (inp : List Char) :
    Option (List Char × List Char) :=
  match inp.takeWhile p with
  | [] => none
  | tk => some (inp.drop tk.length, tk)

/-- ASCII hex digit, as accepted by `hex_digit1`. -/
def isHexDigitChar (c : Char) : Bool :=
  c.isDigit || (('a' ≤ c) && (c ≤ 'f')) || (('A' ≤ c) && (c ≤ 'F'))

/-- Numeric value of a decimal digit run. -/
def decVal (ds : List Char) : Nat :=
  ds.foldl (fun acc c => acc * 10 + (c.toNat - 48)) 0

/-- Numeric value of one hex digit. -/
def hexDigitVal (c : Char) : Nat :=
  if c.isDigit then c.toNat - 48
  else if ('a' ≤ c) ∧ (c ≤ 'f') then c.toNat - 97 + 10
  else c.toNat - 65 + 10

/-- Numeric value of a hex digit run. -/
def hexVal (ds : List Char) : Nat :=
  ds.foldl (fun acc c => acc * 16 + hexDigitVal c) 0

/-- The shared body of `parse_u8`/`parse_u16`: `alt` of a `0x`-prefixed hex
literal and a decimal literal, where a value above `bound` makes the branch
fail (`map_res` over `from_str`/`from_str_radix`, whose overflow is an error
that `alt` recovers from by trying the next branch on the original input). -/
def parseUBound (bound : Nat) (inp : List Char) : Option (List Char × Nat) :=
  let hex : Option (List Char × Nat) :=
    match inp with
    | '0' :: 'x' :: rest =>
      match takeWhile1 isHexDigitChar rest with
      | some (rest2, ds) =>
        let n := hexVal ds
        if n ≤ bound then some (rest2, n) else none
      | none => none
    | _ => none
  match hex with
  | some res => some res
  | none =>
    match takeWhile1 (fun c => c.isDigit) inp with
    | some (rest, ds) =>
      let n := decVal ds
      if n ≤ bound then some (rest, n) else none
    | none => none

/-- `parse_u8`: hex or decimal `u8`. -/
def parse_u8 (inp : List Char) : Option (List Char × Nat) :=
  parseUBound 255 inp

/-- `parse_u16`: hex or decimal `u16`. -/
def parse_u16 (inp : List Char) : Option (List Char × Nat) :=
  parseUBound 65535 inp

/-- `parse_reg`: `r` followed by a `u8` register number (no upper-bound check
at parse time). -/
def parse_reg (inp : List Char) : Option (List Char × Op) :=
  match inp with
  | 'r' :: rest =>
    match parse_u8 rest with
    | some (rest2, n) => some (rest2, .Reg n)
    | none => none
  | _ => none

/-- `parse_imm8`. -/
def parse_imm8 (inp : List Char) : Option (List Char × Op) :=
  match parse_u8 inp with
  | some (rest, n) => some (rest, .Imm8 n)
  | none => none

/-- `parse_imm12`: a `u16` literal additionally rejected above `0xFFF`. -/
def parse_imm12 (inp : List Char) : Option (List Char × Op) :=
  match parse_u16 inp with
  | some (rest, v) => if v ≤ 0xFFF then some (rest, .Imm12 v) else none
  | none => none

/-- `parse_label_ref`: a bare alphabetic identifier (`alpha1`). -/
def parse_label_ref (inp : List Char) : Option (List Char × Op) :=
  match takeWhile1 Char.isAlpha inp with
  | some (rest, name) => some (rest, .Label (String.mk name))
  | none => none

/-- `parse_label`: an alphabetic identifier terminated by `:`. -/
def parse_label (inp : List Char) : Option (List Char × List Char) :=
  match takeWhile1 Char.isAlpha inp with
  | some (rest, name) =>
    match rest with
    | ':' :: rest2 => some (rest2, name)
    | _ => none
  | none => none

/-- `preceded((char(','), multispace0), p)`: a comma, optional whitespace,
then `p`. -/
def commaThen (p : List Char → Option (List Char × Op)) (inp : List Char) :
    Option (List Char × Op) :=
  match inp with
  | ',' :: rest => p (rest.dropWhile Char.isWhitespace)
  | _ => none

/-- `parse_line` from `compiler/parser.rs`: leading whitespace, then either a
label declaration or a case-insensitive mnemonic with its operands.  Returns
the unconsumed remainder of the line together with the parsed instructions. -/
def parse_line (input : List Char) : Option (List Char × List Instr) :=
  let input := input.dropWhile Char.isWhitespace
  match parse_label input with
  | some (rest, label) => some (rest, [.Label (String.mk label)])
  | none =>
    match takeWhile1 Char.isAlpha input with
    | none => none
    | some (input, opcode) =>
      let input := input.dropWhile Char.isWhitespace
      let op := String.mk (opcode.map Char.toUpper)
      if op = "HALT" then some (input, [.Halt])
      else if op = "NOP" then some (input, [.Nop])
      else if op = "MV" ∨ op = "NOT" then
        match parse_reg input with
        | some (i1, rd) =>
          match commaThen parse_reg i1 with
          | some (i2, rs1) =>
            some (i2, [if op = "MV" then .Mv rd rs1 else .Not rd rs1])
          | none => none
        | none => none
      else if op = "ADD" ∨ op = "SUB" ∨ op = "AND" ∨ op = "OR" ∨ op = "XOR" then
        match parse_reg input with
        | some (i1, rd) =>
          match commaThen parse_reg i1 with
          | some (i2, rs1) =>
            match commaThen parse_reg i2 with
            | some (i3, rs2) =>
              some (i3,
                [if op = "ADD" then .Add rd rs1 rs2
                 else if op = "SUB" then .Sub rd rs1 rs2
                 else if op = "AND" then .And rd rs1 rs2
                 else if op = "OR" then .Or rd rs1 rs2
                 else .Xor rd rs1 rs2])
            | none => none
          | none => none
        | none => none
      else if op = "ADDI" ∨ op = "ANDI" ∨ op = "ORI" ∨ op = "XORI" then
        match parse_reg input with
        | some (i1, rd) =>
          match commaThen parse_reg i1 with
          | some (i2, rs1) =>
            match commaThen parse_imm8 i2 with
            | some (i3, imm) =>
              some (i3,
                [if op = "ADDI" then .Addi rd rs1 imm
                 else if op = "ANDI" then .Andi rd rs1 imm
                 else if op = "ORI" then .Ori rd rs1 imm
                 else .Xori rd rs1 imm])
            | none => none
          | none => none
        | none => none
      else if op = "JMP" ∨ op = "BZ" ∨ op = "BNZ" then
        match
          (match parse_label_ref input with
           | some res => some res
           | none => parse_imm12 input) with
        | some (i1, imm) =>
          some (i1,
            [if op = "JMP" then .Jmp imm
             else if op = "BZ" then .Bz imm
             else .Bnz imm])
        | none => none
      else none

/-- Split on `\n`, keeping a (possibly empty) final segment. -/
def splitNl : List Char → List (List Char)
  | [] => [[]]
  | c :: rest =>
    if c = '\n' then [] :: splitNl rest
    else
      match splitNl rest with
      | l :: ls => (c :: l) :: ls
      | [] => [[c]]

/-- Strip one trailing carriage return, as Rust's `str::lines` does. -/
def stripCr (l : List Char) : List Char :=
  if l.getLast? = some '\r' then l.dropLast else l

/-- Rust's `str::lines`: split on newlines, drop a trailing empty segment,
strip a trailing `\r` from each line. -/
def linesOf (cs : List Char) : List (List Char) :=
  let parts := splitNl cs
  let parts := if parts.getLast? = some ([] : List Char) then parts.dropLast else parts
  parts.map stripCr

/-- Rust's `str::trim`, for the ASCII whitespace that can occur here. -/
def trimChars (l : List Char) : List Char :=
  ((l.dropWhile Char.isWhitespace).reverse.dropWhile Char.isWhitespace).reverse

/-- The line loop of `parse_program`: skip blank and `;`-comment lines,
parse each remaining line (appending its instructions and discarding the
line's unconsumed remainder), and report the first failure with its 1-based
line number.  `n` is the 0-based index of the current line. -/
def parseProgramLines : Nat → List (List Char) → Except ParserError (List Instr)
  | _, [] => .ok []
  | n, line :: rest =>
    if trimChars line = [] ∨ (trimChars line).head? = some ';' then
      parseProgramLines (n + 1) rest
    else
      match parse_line line with
      | some (_, instrs) =>
        match parseProgramLines (n + 1) rest with
        | .ok prog => .ok (instrs ++ prog)
        | .error e => .error e
      | none => .error (.Error (n + 1) "syntax error")

/-- `parse_program` from `compiler/parser.rs`. -/
def parse_program (src : String) : Except ParserError (List Instr) :=
  parseProgramLines 0 (linesOf src.toList)

/-! Helper lemmas about register access, wrapping arithmetic and the
symbol table. -/

theorem r_none_of_ge {regs : Registers} {reg : Nat} (h : 16 ≤ reg) :
    Registers.r regs reg = none := by
  unfold Registers.r
  rw [if_neg (by omega), dif_neg (by omega)]

theorem r_some_of_le (regs : Registers) {reg : Nat} (h : reg ≤ 15) :
    ∃ a, Registers.r regs reg = some a := by
  by_cases h0 : reg = 0
  · exact ⟨0, by simp [Registers.r, h0]⟩
  · refine ⟨regs ⟨reg - 1, by omega⟩, ?_⟩
    unfold Registers.r
    rw [if_neg h0, dif_pos ⟨by omega, h⟩]

theorem w_error_of_ge {regs : Registers} {reg v : Nat} (h : 16 ≤ reg) :
    Registers.w regs reg v = .error () := by
  unfold Registers.w
  rw [if_neg (by omega), if_neg (by omega : ¬(1 ≤ reg ∧ reg ≤ 15))]

theorem w_ok_of_le (regs : Registers) {reg : Nat} (v : Nat) (h : reg ≤ 15) :
    ∃ regs', Registers.w regs reg v = .ok regs' := by
  by_cases h0 : reg = 0
  · exact ⟨regs, by simp [Registers.w, h0]⟩
  · refine ⟨fun j => if j.val = reg - 1 then v else regs j, ?_⟩
    unfold Registers.w
    rw [if_neg h0, if_pos ⟨by omega, h⟩]

theorem inbounds_add_eq (a b : Nat) :
    inbounds_add a b = ((a + b) % 256, decide (255 < a + b)) := by
  unfold inbounds_add
  by_cases h : a + b ≤ 255
  · rw [if_pos h]
    have h1 : ¬ (255 < a + b) := by omega
    simp [Nat.mod_eq_of_lt (show a + b < 256 by omega), h1]
  · rw [if_neg h]
    simp [show 255 < a + b by omega]

theorem inbounds_sub_eq {a : Nat} (ha : a < 256) (b : Nat) :
    inbounds_sub a b = (((a + 256) - b) % 256, decide (a < b)) := by
  unfold inbounds_sub
  by_cases h : b ≤ a
  · rw [if_pos h]
    have h1 : (a + 256) - b = (a - b) + 256 := by omega
    rw [h1, Nat.add_mod_right, Nat.mod_eq_of_lt (show a - b < 256 by omega)]
    simp [show ¬ (a < b) by omega]
  · rw [if_neg h]
    simp [show a < b by omega]

theorem tableContains_insert (t : SymbolTable) (k : String) (v : Nat) (l : String) :
    tableContains (tableInsert t k v) l = (tableContains t l || (k == l)) := by
  simp [tableContains, tableInsert, List.any_append]

theorem tableGet_of_contains {t : SymbolTable} {k : String}
    (h : tableContains t k = true) : ∃ a, tableGet t k = some a := by
  have hsome : (t.find? (fun p => p.1 == k)).isSome := by
    rw [List.find?_isSome]
    simpa [tableContains, List.any_eq_true] using h
  obtain ⟨pr, hpr⟩ := Option.isSome_iff_exists.mp hsome
  exact ⟨pr.2, by simp [tableGet, hpr]⟩

/-- The strip pass succeeds on any program whose declared labels are
pairwise distinct and not already in the table; the output program is the
input with `Label` pseudo-instructions filtered out, and the resulting table
holds exactly the old keys plus the declared labels. -/
theorem strip_symbols_aux_ok (p : List Instr) :
    ∀ (symbols : SymbolTable) (pc : Nat),
    (declaredLabels p).Nodup →
    (∀ l ∈ declaredLabels p, tableContains symbols l = false) →
    ∃ tbl, strip_symbols_aux symbols pc p =
        .ok (p.filter (fun i => !isLabelInstr i), tbl) ∧
      ∀ l, tableContains tbl l = true ↔
        (tableContains symbols l = true ∨ l ∈ declaredLabels p) := by
  induction p with
  | nil =>
    intro symbols pc _ _
    exact ⟨symbols, rfl, by simp [declaredLabels]⟩
  | cons i rest ih =>
    intro symbols pc hnd hcon
    cases i
    case Label l =>
      simp only [declaredLabels] at hnd hcon
      have hl : tableContains symbols l = false := hcon l (by simp)
      have hnotin : l ∉ declaredLabels rest := (List.nodup_cons.mp hnd).1
      have hnd' : (declaredLabels rest).Nodup := (List.nodup_cons.mp hnd).2
      have hcon' : ∀ l' ∈ declaredLabels rest,
          tableContains (tableInsert symbols l pc) l' = false := by
        intro l' hl'
        rw [tableContains_insert]
        have h1 : tableContains symbols l' = false := hcon l' (by simp [hl'])
        have h2 : l ≠ l' := fun he => hnotin (he ▸ hl')
        simp [h1, h2]
      obtain ⟨tbl, hs, hc⟩ := ih (tableInsert symbols l pc) pc hnd' hcon'
      refine ⟨tbl, ?_, ?_⟩
      · simp [strip_symbols_aux, hl, hs, isLabelInstr, List.filter_cons]
      · intro l'
        rw [hc l', tableContains_insert]
        simp only [Bool.or_eq_true, beq_iff_eq, declaredLabels, List.mem_cons]
        constructor
        · rintro ((h | h) | h)
          · exact Or.inl h
          · exact Or.inr (Or.inl h.symm)
          · exact Or.inr (Or.inr h)
        · rintro (h | h | h)
          · exact Or.inl (Or.inl h)
          · exact Or.inl (Or.inr h.symm)
          · exact Or.inr h
    all_goals {
      simp only [declaredLabels] at hnd hcon
      obtain ⟨tbl, hs, hc⟩ := ih symbols ((pc + 1) % 65536) hnd hcon
      refine ⟨tbl, ?_, ?_⟩
      · simp [strip_symbols_aux, hs, isLabelInstr, List.filter_cons]
      · intro l'
        simpa [declaredLabels] using hc l'
    }

/-- Any instruction that is neither a `Label` pseudo-instruction nor a
branch with a `Label` target passes through `replace_symbols` unchanged. -/
theorem replace_cons_other (i : Instr) (rest : List Instr) (tbl : SymbolTable)
    (hL : isLabelInstr i = false) (hT : branchTargets i = []) :
    replace_symbols (i :: rest) tbl =
      match replace_symbols rest tbl with
      | .ok out => .ok (i :: out)
      | .error e => .error e := by
  cases i
  case Label s => simp [isLabelInstr] at hL
  case Jmp imm => cases imm <;> simp [branchTargets] at hT ⊢ <;> rfl
  case Bz imm => cases imm <;> simp [branchTargets] at hT ⊢ <;> rfl
  case Bnz imm => cases imm <;> simp [branchTargets] at hT ⊢ <;> rfl
  all_goals rfl

/-- An instruction that respects `labelsOnlyInBranches` and has no branch
target carries no `Label` operand at all. -/
theorem no_label_operand_of (i : Instr) (h2 : labelsOnlyInBranches i = true)
    (hT : branchTargets i = []) : instrHasLabelOperand i = false := by
  cases i
  case Jmp imm => cases imm <;> simp_all [branchTargets, instrHasLabelOperand, opIsLabel]
  case Bz imm => cases imm <;> simp_all [branchTargets, instrHasLabelOperand, opIsLabel]
  case Bnz imm => cases imm <;> simp_all [branchTargets, instrHasLabelOperand, opIsLabel]
  all_goals simp_all [labelsOnlyInBranches, instrHasLabelOperand]

/-- An instruction with a nonempty branch-target list is a branch on a
`Label` operand. -/
theorem branchTargets_nonempty (i : Instr) (h : branchTargets i ≠ []) :
    ∃ sym, branchTargets i = [sym] ∧
      (i = .Jmp (.Label sym) ∨ i = .Bz (.Label sym) ∨ i = .Bnz (.Label sym)) := by
  cases i
  case Jmp imm =>
    cases imm
    case Label s => exact ⟨s, rfl, Or.inl rfl⟩
    all_goals simp [branchTargets] at h
  case Bz imm =>
    cases imm
    case Label s => exact ⟨s, rfl, Or.inr (Or.inl rfl)⟩
    all_goals simp [branchTargets] at h
  case Bnz imm =>
    cases imm
    case Label s => exact ⟨s, rfl, Or.inr (Or.inr rfl)⟩
    all_goals simp [branchTargets] at h
  all_goals simp [branchTargets] at h

/-- The replace pass succeeds on any label-free program whose label operands
sit only in branch targets present in the table; the result is label-free in
both senses and has the same length. -/
theorem replace_symbols_ok (q : List Instr) :
    ∀ (tbl : SymbolTable),
    (∀ i ∈ q, isLabelInstr i = false) →
    (∀ i ∈ q, labelsOnlyInBranches i = true) →
    (∀ i ∈ q, ∀ s ∈ branchTargets i, tableContains tbl s = true) →
    ∃ r, replace_symbols q tbl = .ok r ∧ r.length = q.length ∧
      ∀ i ∈ r, isLabelInstr i = false ∧ instrHasLabelOperand i = false := by
  induction q with
  | nil => intro tbl _ _ _; exact ⟨[], rfl, rfl, by simp⟩
  | cons i rest ih =>
    intro tbl h1 h2 h3
    obtain ⟨r, hr, hlen, hclean⟩ :=
      ih tbl (fun j hj => h1 j (List.mem_cons_of_mem _ hj))
         (fun j hj => h2 j (List.mem_cons_of_mem _ hj))
         (fun j hj => h3 j (List.mem_cons_of_mem _ hj))
    have hLi : isLabelInstr i = false := h1 _ (List.mem_cons_self _ _)
    by_cases hbt : branchTargets i = []
    · refine ⟨i :: r, ?_, by simp [hlen], ?_⟩
      · rw [replace_cons_other i rest tbl hLi hbt, hr]
      · intro j hj
        rcases List.mem_cons.mp hj with h | h
        · subst h
          exact ⟨hLi, no_label_operand_of _ (h2 _ (List.mem_cons_self _ _)) hbt⟩
        · exact hclean j h
    · obtain ⟨sym, hT, hshape⟩ := branchTargets_nonempty i hbt
      obtain ⟨a, hg⟩ := tableGet_of_contains
        (h3 _ (List.mem_cons_self _ _) sym (by rw [hT]; exact List.mem_singleton_self _))
      rcases hshape with hi | hi | hi
      · subst hi
        refine ⟨.Jmp (.Imm12 a) :: r, ?_, by simp [hlen], ?_⟩
        · simp [replace_symbols, hg, hr]
        · intro j hj
          rcases List.mem_cons.mp hj with h | h
          · subst h; exact ⟨rfl, rfl⟩
          · exact hclean j h
      · subst hi
        refine ⟨.Bz (.Imm12 a) :: r, ?_, by simp [hlen], ?_⟩
        · simp [replace_symbols, hg, hr]
        · intro j hj
          rcases List.mem_cons.mp hj with h | h
          · subst h; exact ⟨rfl, rfl⟩
          · exact hclean j h
      · subst hi
        refine ⟨.Bnz (.Imm12 a) :: r, ?_, by simp [hlen], ?_⟩
        · simp [replace_symbols, hg, hr]
        · intro j hj
          rcases List.mem_cons.mp hj with h | h
          · subst h; exact ⟨rfl, rfl⟩
          · exact hclean j h

/-! Claim theorems. -/

/-- Claim C1 (code bug): the interpreter has no arm for the bitwise
instructions.  `And`, `Or`, `Xor`, `Andi`, `Ori` and `Xori` with in-range
register operands fall through to the catch-all and fault with
`InvalidInstruction` instead of computing the bitwise combination the
specification (and the AST documentation) describes. -/
theorem interpret_bitwise_unimplemented :
    interpret (.And (.Reg 1) (.Reg 2) (.Reg 3)) State.new =
      .error (.InvalidInstruction (.And (.Reg 1) (.Reg 2) (.Reg 3))) ∧
    interpret (.Or (.Reg 1) (.Reg 2) (.Reg 3)) State.new =
      .error (.InvalidInstruction (.Or (.Reg 1) (.Reg 2) (.Reg 3))) ∧
    interpret (.Xor (.Reg 1) (.Reg 2) (.Reg 3)) State.new =
      .error (.InvalidInstruction (.Xor (.Reg 1) (.Reg 2) (.Reg 3))) ∧
    interpret (.Andi (.Reg 1) (.Reg 2) (.Imm8 3)) State.new =
      .error (.InvalidInstruction (.Andi (.Reg 1) (.Reg 2) (.Imm8 3))) ∧
    interpret (.Ori (.Reg 1) (.Reg 2) (.Imm8 3)) State.new =
      .error (.InvalidInstruction (.Ori (.Reg 1) (.Reg 2) (.Imm8 3))) ∧
    interpret (.Xori (.Reg 1) (.Reg 2) (.Imm8 3)) State.new =
      .error (.InvalidInstruction (.Xori (.Reg 1) (.Reg 2) (.Imm8 3))) :=
  ⟨rfl, rfl, rfl, rfl, rfl, rfl⟩

/-- Claim C2 (code bug): the encoder maps `Jmp{Imm12 v}` to the word `0`,
discarding the immediate entirely, so bits 12-23 of the encoded word do not
carry `v` (shown here at `v = 1`). -/
theorem encode_jmp_drops_immediate :
    encode (.Jmp (.Imm12 1)) = .ok 0 ∧
    ∀ w, encode (.Jmp (.Imm12 1)) = .ok w → (w >>> 12) &&& 0xFFF ≠ 1 := by
  refine ⟨rfl, fun w h => ?_⟩
  simp only [encode, EncodeResult.ok.injEq] at h
  subst h
  decide

/-- Claim C3 (code bug): `fun4` is documented as the bits-20-23 field but its
mask clears bits 16-19, so it erases a previously set `rs2` field and field
setters do not commute: from a fresh word, `rs2 1` then `fun4 1` yields
`0x100000` while `fun4 1` then `rs2 1` yields `0x110000`. -/
theorem fun4_masks_wrong_bits :
    ((InstrBuilder.new.rs2 1).fun4 1).word = 0x100000 ∧
    ((InstrBuilder.new.fun4 1).rs2 1).word = 0x110000 ∧
    (InstrBuilder.new.rs2 1).fun4 1 ≠ (InstrBuilder.new.fun4 1).rs2 1 :=
  ⟨by decide, by decide, by decide⟩

/-- Claim C4 (counterexample): encoding a `Label` pseudo-instruction does not
return a typed error value — it hits the source's
`panic!("Cannot encode labels")`, modelled as the `abort` outcome. -/
theorem encode_label_aborts :
    encode (.Label "x") = .abort "Cannot encode labels" ∧
    (∀ e, encode (.Label "x") ≠ .error e) ∧
    (∀ w, encode (.Label "x") ≠ .ok w) :=
  ⟨rfl, fun e h => by simp [encode] at h, fun w h => by simp [encode] at h⟩

/-- Claim C4 (amended): every core operation is modelled as a total function
into a typed result, and the encoder in particular aborts (panics) only on
`Label` pseudo-instructions; on every other instruction it returns a typed
`ok` or `error` result. -/
theorem encode_aborts_only_on_labels :
    ∀ i : Instr, isLabelInstr i = false → EncodeResult.aborts (encode i) = false := by
  intro i h
  cases i
  case Label s => simp [isLabelInstr] at h
  case Mv rd rs1 => cases rd <;> cases rs1 <;> rfl
  case Addi rd rs1 imm => cases rd <;> cases rs1 <;> cases imm <;> rfl
  case Add rd rs1 rs2 => cases rd <;> cases rs1 <;> cases rs2 <;> rfl
  case Sub rd rs1 rs2 => cases rd <;> cases rs1 <;> cases rs2 <;> rfl
  case Jmp imm => cases imm <;> rfl
  all_goals rfl

/-- Witness for `encode_aborts_only_on_labels` at `Halt`. -/
theorem encode_aborts_only_on_labels_witness :
    isLabelInstr Instr.Halt = false ∧
    EncodeResult.aborts (encode Instr.Halt) = false :=
  ⟨rfl, encode_aborts_only_on_labels Instr.Halt rfl⟩

/-- Claim C5 (counterexample): the claim's hypothesis only constrains labels
referenced by branches, but (a) a duplicate declaration of an unreferenced
label already makes `strip_symbols` fail, and (b) a `Label` operand in a
non-branch slot survives both passes, so the result can still contain a
`Label` operand. -/
theorem resolver_claim_fails :
    strip_symbols [.Label "a", .Label "a"] = .error (.DuplicateSymbol "a") ∧
    strip_symbols [.Mv (.Label "x") (.Reg 0)] =
      .ok ([.Mv (.Label "x") (.Reg 0)], []) ∧
    replace_symbols [.Mv (.Label "x") (.Reg 0)] [] =
      .ok [.Mv (.Label "x") (.Reg 0)] ∧
    instrHasLabelOperand (.Mv (.Label "x") (.Reg 0)) = true :=
  ⟨rfl, rfl, rfl, rfl⟩

/-- Claim C5 (amended): for every program in which no label name is declared
twice, every label referenced by a `Jmp`/`Bz`/`Bnz` target is declared, and
`Label` operands occur only as branch targets, `strip_symbols` followed by
`replace_symbols` succeeds; the stripped program is the input minus its
`Label` pseudo-instructions (so addresses are exactly the indices 0..N-1 of
the stripped program), and the final program has the same length and contains
no `Label` instruction and no `Label` operand. -/
theorem resolver_total_on_wellformed (p : List Instr)
    (hnodup : (declaredLabels p).Nodup)
    (honly : ∀ i ∈ p, labelsOnlyInBranches i = true)
    (hdecl : ∀ i ∈ p, ∀ s ∈ branchTargets i, s ∈ declaredLabels p) :
    ∃ tbl r,
      strip_symbols p = .ok (p.filter (fun i => !isLabelInstr i), tbl) ∧
      replace_symbols (p.filter (fun i => !isLabelInstr i)) tbl = .ok r ∧
      r.length = (p.filter (fun i => !isLabelInstr i)).length ∧
      ∀ i ∈ r, isLabelInstr i = false ∧ instrHasLabelOperand i = false := by
  obtain ⟨tbl, hs, hc⟩ := strip_symbols_aux_ok p [] 0 hnodup (fun l _ => rfl)
  have hq : ∀ i ∈ p.filter (fun i => !isLabelInstr i), i ∈ p ∧ isLabelInstr i = false := by
    intro i hi
    have := List.mem_filter.mp hi
    exact ⟨this.1, by simpa using this.2⟩
  obtain ⟨r, hrep, hlen, hclean⟩ :=
    replace_symbols_ok (p.filter (fun i => !isLabelInstr i)) tbl
      (fun i hi => (hq i hi).2)
      (fun i hi => honly i (hq i hi).1)
      (fun i hi s hs' => by
        rw [hc s]
        exact Or.inr (hdecl i (hq i hi).1 s hs'))
  exact ⟨tbl, r, hs, hrep, hlen, hclean⟩

/-- Witness for `resolver_total_on_wellformed` on the program
`s: ; jmp s ; halt`. -/
theorem resolver_total_on_wellformed_witness :
    ∃ tbl r,
      strip_symbols [.Label "s", .Jmp (.Label "s"), .Halt] =
        .ok (([.Label "s", .Jmp (.Label "s"), .Halt] : List Instr).filter
              (fun i => !isLabelInstr i), tbl) ∧
      replace_symbols (([.Label "s", .Jmp (.Label "s"), .Halt] : List Instr).filter
              (fun i => !isLabelInstr i)) tbl = .ok r ∧
      r.length = (([.Label "s", .Jmp (.Label "s"), .Halt] : List Instr).filter
              (fun i => !isLabelInstr i)).length ∧
      ∀ i ∈ r, isLabelInstr i = false ∧ instrHasLabelOperand i = false :=
  resolver_total_on_wellformed [.Label "s", .Jmp (.Label "s"), .Halt]
    (by decide) (by decide) (by decide)

/-- Claim C6 (confirmed): `Add`, `Addi` and `Sub` on in-range registers write
the wrapping 8-bit sum (resp. difference) of the sources to `rd`, set the
zero flag exactly when the 8-bit result is zero, set the overflow flag
exactly when the unsigned sum exceeds 255 (resp. when the subtraction
underflows), and continue at PC+1; and the concrete sequence
`addi r1, r0, 255 ; addi r1, r1, 1` from the default state leaves `r1 = 0`
with the zero and overflow flags set. -/
theorem add_addi_sub_semantics :
    (∀ (s : State) (rd rs1 rs2 a b : Nat), rd ≤ 15 → s.pc + 1 < 65536 →
      Registers.r s.regs rs1 = some a → Registers.r s.regs rs2 = some b →
      ∃ regs', Registers.w s.regs rd ((a + b) % 256) = .ok regs' ∧
        interpret (.Add (.Reg rd) (.Reg rs1) (.Reg rs2)) s =
          .ok ({ s with
                   regs := regs',
                   flags := ⟨(a + b) % 256 == 0, decide (255 < a + b)⟩ },
               some (s.pc + 1))) ∧
    (∀ (s : State) (rd rs1 imm a : Nat), rd ≤ 15 → s.pc + 1 < 65536 →
      Registers.r s.regs rs1 = some a →
      ∃ regs', Registers.w s.regs rd ((a + imm) % 256) = .ok regs' ∧
        interpret (.Addi (.Reg rd) (.Reg rs1) (.Imm8 imm)) s =
          .ok ({ s with
                   regs := regs',
                   flags := ⟨(a + imm) % 256 == 0, decide (255 < a + imm)⟩ },
               some (s.pc + 1))) ∧
    (∀ (s : State) (rd rs1 rs2 a b : Nat), rd ≤ 15 → s.pc + 1 < 65536 →
      a < 256 →
      Registers.r s.regs rs1 = some a → Registers.r s.regs rs2 = some b →
      ∃ regs', Registers.w s.regs rd (((a + 256) - b) % 256) = .ok regs' ∧
        interpret (.Sub (.Reg rd) (.Reg rs1) (.Reg rs2)) s =
          .ok ({ s with
                   regs := regs',
                   flags := ⟨((a + 256) - b) % 256 == 0, decide (a < b)⟩ },
               some (s.pc + 1))) ∧
    (∃ s1 s2 : State,
      interpret (.Addi (.Reg 1) (.Reg 0) (.Imm8 255)) State.new = .ok (s1, some 1) ∧
      interpret (.Addi (.Reg 1) (.Reg 1) (.Imm8 1)) { s1 with pc := 1 } = .ok (s2, some 2) ∧
      Registers.r s2.regs 1 = some 0 ∧ s2.flags.zero = true ∧ s2.flags.overflow = true) := by
  refine ⟨?_, ?_, ?_, ?_⟩
  · intro s rd rs1 rs2 a b hrd hpc h1 h2
    obtain ⟨regs', hw⟩ := w_ok_of_le s.regs ((a + b) % 256) hrd
    refine ⟨regs', hw, ?_⟩
    simp [interpret, h1, h2, inbounds_add_eq, hw, Nat.mod_eq_of_lt hpc]
  · intro s rd rs1 imm a hrd hpc h1
    obtain ⟨regs', hw⟩ := w_ok_of_le s.regs ((a + imm) % 256) hrd
    refine ⟨regs', hw, ?_⟩
    simp [interpret, h1, inbounds_add_eq, hw, Nat.mod_eq_of_lt hpc]
  · intro s rd rs1 rs2 a b hrd hpc ha h1 h2
    obtain ⟨regs', hw⟩ := w_ok_of_le s.regs (((a + 256) - b) % 256) hrd
    refine ⟨regs', hw, ?_⟩
    simp [interpret, h1, h2, inbounds_sub_eq ha, hw, Nat.mod_eq_of_lt hpc]
  · exact ⟨_, _, rfl, rfl, rfl, rfl, rfl⟩

/-- Witness for `add_addi_sub_semantics` at `add r1, r0, r0` in the default
state. -/
theorem add_addi_sub_semantics_witness :
    ∃ regs', Registers.w State.new.regs 1 ((0 + 0) % 256) = .ok regs' ∧
      interpret (.Add (.Reg 1) (.Reg 0) (.Reg 0)) State.new =
        .ok ({ State.new with
                 regs := regs',
                 flags := ⟨(0 + 0) % 256 == 0, decide (255 < 0 + 0)⟩ },
             some (State.new.pc + 1)) :=
  add_addi_sub_semantics.1 State.new 1 0 0 0 0 (by decide) (by decide) rfl rfl

/-- Claim C7 (confirmed): register 0 is hardwired to zero — reading it yields
0 in every register file, writing it succeeds but returns the register file
unchanged, and after any successful interpreter step register 0 still reads
as 0. -/
theorem register_zero_hardwired :
    (∀ regs : Registers, Registers.r regs 0 = some 0) ∧
    (∀ (regs : Registers) (v : Nat), Registers.w regs 0 v = .ok regs) ∧
    (∀ (i : Instr) (s : State) (out : State × Option Nat),
      interpret i s = .ok out → Registers.r out.fst.regs 0 = some 0) :=
  ⟨fun _ => rfl, fun _ _ => rfl, fun _ _ _ _ => rfl⟩

/-- Witness for `register_zero_hardwired` after a `Nop` step from the default
state. -/
theorem register_zero_hardwired_witness :
    Registers.r ({ State.new with flags := ⟨true, false⟩ } : State).regs 0 = some 0 :=
  register_zero_hardwired.2.2 .Nop State.new
    ({ State.new with flags := ⟨true, false⟩ }, some 1) rfl

/-- Claim C8 (counterexample): the encoder does not reject an out-of-range
register index — `addi` with `rd = r16` encodes successfully (to the same
word as `rd = r0`, the register field being masked to its low 4 bits). -/
theorem encoder_accepts_reg16 :
    encode (.Addi (.Reg 16) (.Reg 0) (.Imm8 0)) = .ok 1 ∧
    ∀ e, encode (.Addi (.Reg 16) (.Reg 0) (.Imm8 0)) ≠ .error e := by
  refine ⟨by decide, fun e h => ?_⟩
  rw [(by decide : encode (.Addi (.Reg 16) (.Reg 0) (.Imm8 0)) = .ok 1)] at h
  simp at h

/-- Claim C8 (amended): at interpretation time, every implemented
register-form instruction (`Mv`, `Not`, `Add`, `Sub`, `Addi`) with a register
operand of index 16 or more faults with `InvalidRegister`; the encoder,
however, does not reject out-of-range indices — its register fields are
truncated to their low 4 bits (`value & 0x0F`), so `r16` encodes like `r0`. -/
theorem invalid_register_faults :
    (∀ (s : State) (rd rs1 : Nat), 16 ≤ rd ∨ 16 ≤ rs1 →
      ∃ j, 16 ≤ j ∧
        interpret (.Mv (.Reg rd) (.Reg rs1)) s = .error (.InvalidRegister j)) ∧
    (∀ (s : State) (rd rs1 : Nat), 16 ≤ rd ∨ 16 ≤ rs1 →
      ∃ j, 16 ≤ j ∧
        interpret (.Not (.Reg rd) (.Reg rs1)) s = .error (.InvalidRegister j)) ∧
    (∀ (s : State) (rd rs1 rs2 : Nat), 16 ≤ rd ∨ 16 ≤ rs1 ∨ 16 ≤ rs2 →
      ∃ j, 16 ≤ j ∧
        interpret (.Add (.Reg rd) (.Reg rs1) (.Reg rs2)) s = .error (.InvalidRegister j)) ∧
    (∀ (s : State) (rd rs1 rs2 : Nat), 16 ≤ rd ∨ 16 ≤ rs1 ∨ 16 ≤ rs2 →
      ∃ j, 16 ≤ j ∧
        interpret (.Sub (.Reg rd) (.Reg rs1) (.Reg rs2)) s = .error (.InvalidRegister j)) ∧
    (∀ (s : State) (rd rs1 imm : Nat), 16 ≤ rd ∨ 16 ≤ rs1 →
      ∃ j, 16 ≤ j ∧
        interpret (.Addi (.Reg rd) (.Reg rs1) (.Imm8 imm)) s = .error (.InvalidRegister j)) ∧
    (∀ (b : InstrBuilder) (v shift : Nat),
      InstrBuilder.set_reg b v shift = InstrBuilder.set_reg b (v % 16) shift) ∧
    encode (.Addi (.Reg 16) (.Reg 0) (.Imm8 0)) =
      encode (.Addi (.Reg 0) (.Reg 0) (.Imm8 0)) := by
  have hand : ∀ x : Nat, x &&& 15 = x % 16 := by
    intro x
    have h := Nat.and_pow_two_sub_one_eq_mod x 4
    norm_num at h
    exact h
  refine ⟨?_, ?_, ?_, ?_, ?_, ?_, by decide⟩
  · intro s rd rs1 h
    by_cases h1 : 16 ≤ rs1
    · exact ⟨rs1, h1, by simp [interpret, r_none_of_ge h1]⟩
    · have hrd : 16 ≤ rd := h.resolve_right h1
      obtain ⟨a, ha⟩ := r_some_of_le s.regs (show rs1 ≤ 15 by omega)
      exact ⟨rd, hrd, by simp [interpret, ha, w_error_of_ge hrd]⟩
  · intro s rd rs1 h
    by_cases h1 : 16 ≤ rs1
    · exact ⟨rs1, h1, by simp [interpret, r_none_of_ge h1]⟩
    · have hrd : 16 ≤ rd := h.resolve_right h1
      obtain ⟨a, ha⟩ := r_some_of_le s.regs (show rs1 ≤ 15 by omega)
      exact ⟨rd, hrd, by simp [interpret, ha, w_error_of_ge hrd]⟩
  · intro s rd rs1 rs2 h
    by_cases h1 : 16 ≤ rs1
    · exact ⟨rs1, h1, by simp [interpret, r_none_of_ge h1]⟩
    · obtain ⟨a, ha⟩ := r_some_of_le s.regs (show rs1 ≤ 15 by omega)
      by_cases h2 : 16 ≤ rs2
      · exact ⟨rs2, h2, by simp [interpret, ha, r_none_of_ge h2]⟩
      · obtain ⟨b, hb⟩ := r_some_of_le s.regs (show rs2 ≤ 15 by omega)
        have hrd : 16 ≤ rd := by rcases h with h | h | h <;> omega
        exact ⟨rd, hrd,
          by simp [interpret, ha, hb, inbounds_add_eq, w_error_of_ge hrd]⟩
  · intro s rd rs1 rs2 h
    by_cases h1 : 16 ≤ rs1
    · exact ⟨rs1, h1, by simp [interpret, r_none_of_ge h1]⟩
    · obtain ⟨a, ha⟩ := r_some_of_le s.regs (show rs1 ≤ 15 by omega)
      by_cases h2 : 16 ≤ rs2
      · exact ⟨rs2, h2, by simp [interpret, ha, r_none_of_ge h2]⟩
      · obtain ⟨b, hb⟩ := r_some_of_le s.regs (show rs2 ≤ 15 by omega)
        have hrd : 16 ≤ rd := by rcases h with h | h | h <;> omega
        refine ⟨rd, hrd, ?_⟩
        obtain ⟨res, ov, hsub⟩ : ∃ res ov, inbounds_sub a b = (res, ov) :=
          ⟨(inbounds_sub a b).1, (inbounds_sub a b).2, rfl⟩
        simp [interpret, ha, hb, hsub, w_error_of_ge hrd]
  · intro s rd rs1 imm h
    by_cases h1 : 16 ≤ rs1
    · exact ⟨rs1, h1, by simp [interpret, r_none_of_ge h1]⟩
    · have hrd : 16 ≤ rd := h.resolve_right h1
      obtain ⟨a, ha⟩ := r_some_of_le s.regs (show rs1 ≤ 15 by omega)
      exact ⟨rd, hrd,
        by simp [interpret, ha, inbounds_add_eq, w_error_of_ge hrd]⟩
  · intro b v shift
    unfold InstrBuilder.set_reg
    have h1 : v &&& 15 = v % 16 &&& 15 := by
      rw [hand v, hand (v % 16)]
      omega
    rw [h1]

/-- Witness for `invalid_register_faults` at `mv r16, r0` in the default
state. -/
theorem invalid_register_faults_witness :
    ∃ j, 16 ≤ j ∧
      interpret (.Mv (.Reg 16) (.Reg 0)) State.new = .error (.InvalidRegister j) :=
  invalid_register_faults.1 State.new 16 0 (Or.inl (by decide))

/-- Claim C9 (confirmed): the encoding is not injective — `Nop`,
`Mv r0, r0` and `Addi r0, r0, 0` all encode to the word 1, and `Halt` and
every `Jmp{Imm12 v}` encode to the word 0, although these are distinct
instructions. -/
theorem encoding_not_injective :
    encode .Nop = .ok 1 ∧
    encode (.Mv (.Reg 0) (.Reg 0)) = .ok 1 ∧
    encode (.Addi (.Reg 0) (.Reg 0) (.Imm8 0)) = .ok 1 ∧
    encode .Halt = .ok 0 ∧
    (∀ v, encode (.Jmp (.Imm12 v)) = .ok 0) ∧
    Instr.Nop ≠ .Mv (.Reg 0) (.Reg 0) ∧
    Instr.Nop ≠ .Addi (.Reg 0) (.Reg 0) (.Imm8 0) ∧
    Instr.Mv (.Reg 0) (.Reg 0) ≠ .Addi (.Reg 0) (.Reg 0) (.Imm8 0) ∧
    Instr.Halt ≠ .Jmp (.Imm12 5) :=
  ⟨by decide, by decide, by decide, rfl, fun v => rfl,
   by decide, by decide, by decide, by decide⟩

/-- Claim C10 (confirmed): if a line's prefix parses as an instruction or
label declaration, whole-program parsing accepts the line and silently
discards the unconsumed remainder; in particular `mv r1, r2, r3` parses as
`Mv r1, r2` with leftover `, r3`, and `parse_program` accepts it. -/
theorem line_remainder_discarded :
    (∀ (line rest : List Char) (instrs : List Instr),
      ¬ trimChars line = [] → ¬ (trimChars line).head? = some ';' →
      parse_line line = some (rest, instrs) →
      parseProgramLines 0 [line] = .ok instrs) ∧
    parse_line ("mv r1, r2, r3".toList) =
      some ((", r3").toList, [.Mv (.Reg 1) (.Reg 2)]) ∧
    parse_program "mv r1, r2, r3" = .ok [.Mv (.Reg 1) (.Reg 2)] := by
  refine ⟨?_, rfl, rfl⟩
  intro line rest instrs h1 h2 h3
  simp [parseProgramLines, h1, h2, h3]

/-- Witness for `line_remainder_discarded` on the line `mv r1, r2, r3`. -/
theorem line_remainder_discarded_witness :
    parseProgramLines 0 ["mv r1, r2, r3".toList] = .ok [.Mv (.Reg 1) (.Reg 2)] :=
  line_remainder_discarded.1 ("mv r1, r2, r3".toList) (", r3".toList)
    [.Mv (.Reg 1) (.Reg 2)] (by decide) (by decide) (by decide)

end Cobble
